import Mathlib

/-!
Verification development for the openchaos-feed repository.

The Go sources are shallowly embedded: the Postgres `events` table becomes a
`List Event`, each SQL statement of `internal/feed/store.go` becomes a Lean
function on that list (mirroring the SQL's WHERE / ORDER BY / LIMIT semantics),
the producers' classification logic (`internal/feed/ingester.go`,
`cmd/backfill/main.go`) becomes pure functions, and the paginating fetchers of
the GitHub client become functions over an abstract server (a map from request
number to page response).  Machine integers (int, int64, int8) are modelled as
`Int`; timestamps (`time.Time`, `timestamptz`) as `Int` (nanoseconds since
epoch); JSON payloads as `String`; the store-assigned UUID primary key as a
`Nat` that is required / shown to be distinct per row.
-/

/-! ## Data model (`internal/db/postgres.go`, feed types and migrations)

`type EventType string` with its constants, the `Event` struct (the columns of
the `events` table from `001_create_events.sql` / `007_add_edit_history.sql`),
and `EditHistoryEntry`. -/

abbrev EventType := String

def EventPROpened : EventType := "pr_opened"

def EventPRClosed : EventType := "pr_closed"

def EventPRMerged : EventType := "pr_merged"

def EventPRReopened : EventType := "pr_reopened"

def EventPREdited : EventType := "pr_edited"

def EventPRSynchronized : EventType := "pr_synchronized"

def EventReviewSubmitted : EventType := "review_submitted"

def EventReviewComment : EventType := "review_comment"

def EventIssueOpened : EventType := "issue_opened"

def EventIssueClosed : EventType := "issue_closed"

def EventIssueReopened : EventType := "issue_reopened"

def EventIssueEdited : EventType := "issue_edited"

def EventIssueComment : EventType := "issue_comment"

def EventCommitComment : EventType := "commit_comment"

def EventDiscussionComment : EventType := "discussion_comment"

def EventReaction : EventType := "reaction"

def EventStar : EventType := "star"

def EventFork : EventType := "fork"

def EventPush : EventType := "push"

def EventRelease : EventType := "release"

/-- A previous comment body recorded on edit (`EditHistoryEntry` in the Go
source; `editedAt` is `time.Time`, modelled as `Int`). -/
structure EditHistoryEntry where
  body : String
  editedAt : Int
  deriving DecidableEq, Repr

/-- One row of the `events` table / the Go `Event` struct.  `id` is the
store-assigned primary key (UUID in Postgres, modelled as `Nat`); `github_id`
is nullable with a UNIQUE constraint (NULLs never conflict). -/
structure Event where
  id : Nat
  type : EventType
  githubUser : String
  githubUserID : Int
  prNumber : Option Int := none
  issueNumber : Option Int := none
  discussionNumber : Option Int := none
  commentID : Option Int := none
  choice : Option Int := none
  reactionType : Option String := none
  githubID : Option Int := none
  payload : String := ""
  contentHash : String := ""
  editHistory : List EditHistoryEntry := []
  occurredAt : Int := 0
  ingestedAt : Int := 0
  deriving DecidableEq, Repr

/-! ## `Store.Insert` (`internal/feed/store.go` lines 27-82)

The INSERT ... SELECT inserts the candidate row iff
(1) no existing row has the same (content_hash, type, github_user, occurred_at),
(2) it is not a star/fork for which a row with the same (type, github_user)
    already exists,
and then `ON CONFLICT (github_id) DO NOTHING` additionally drops the row when
its github_id is non-NULL and equal to an existing row's github_id (the UNIQUE
constraint never fires for NULL).  A suppressed insert is a silent no-op
(`pgx.ErrNoRows` is swallowed).  The database assigns `id` (gen_random_uuid())
and `ingested_at` (NOW()); we model them as a fresh `Nat` never used in the
table and an explicit `now` argument. -/

/-- The WHERE NOT EXISTS content-duplicate check of `Insert`. -/
def contentDupExists (db : List Event) (e : Event) : Bool :=
  db.any fun r =>
    r.contentHash == e.contentHash && r.type == e.type &&
      r.githubUser == e.githubUser && r.occurredAt == e.occurredAt

/-- The star/fork narrowing check of `Insert`: the candidate is a star or fork
and some row already has its (type, github_user). -/
def starForkDupExists (db : List Event) (e : Event) : Bool :=
  db.any fun r =>
    r.type == e.type && r.githubUser == e.githubUser &&
      (e.type == EventStar || e.type == EventFork)

/-- The `ON CONFLICT (github_id)` condition: non-NULL github_id equal to an
existing row's github_id. -/
def githubIDConflict (db : List Event) (e : Event) : Bool :=
  e.githubID.isSome && db.any fun r => r.githubID == e.githubID

/-- A fresh primary key: one more than the largest id in the table (stands in
for `gen_random_uuid()`; all that matters is that it is unused). -/
def freshId (db : List Event) : Nat :=
  (db.map (·.id)).foldr max 0 + 1

/-- `Store.Insert`: conditional insert with dual dedup key and star/fork
narrowing; on any suppression the table is unchanged and no error is raised. -/
def insertEvent (db : List Event) (e : Event) (now : Int) : List Event :=
  if contentDupExists db e || starForkDupExists db e then db
  else if githubIDConflict db e then db
  else db ++ [{ e with id := freshId db, ingestedAt := now }]

/-! ## `Store.UpdateCommentEdit` (store.go lines 122-141) and
`Store.DeleteByCommentID` (store.go lines 186-196)

`UpdateCommentEdit` runs one UPDATE setting payload, content_hash (recomputed
via `computeContentHash`) and `edit_history = [newEntry] || edit_history`
(jsonb array concatenation, i.e. prepend) on every row with the given
comment_id, and reports "not found" iff zero rows were affected.
`DeleteByCommentID` deletes every row with the comment_id and reports "not
found" iff zero rows were affected.  SHA-256 (`computeContentHash`) is modelled
as an abstract function `hash : String → String`. -/

/-- The per-row effect of `UpdateCommentEdit`'s UPDATE statement. -/
def applyCommentEdit (hash : String → String) (commentID : Int)
    (newPayload : String) (previousBody : String) (editedAt : Int)
    (r : Event) : Event :=
  if r.commentID == some commentID then
    { r with payload := newPayload, contentHash := hash newPayload,
             editHistory := ⟨previousBody, editedAt⟩ :: r.editHistory }
  else r

/-- `Store.UpdateCommentEdit`. -/
def updateCommentEdit (hash : String → String) (db : List Event)
    (commentID : Int) (newPayload : String) (previousBody : String)
    (editedAt : Int) : Except String (List Event) :=
  if (db.filter fun r => r.commentID == some commentID).isEmpty then
    .error ("comment " ++ toString commentID ++ " not found")
  else
    .ok (db.map (applyCommentEdit hash commentID newPayload previousBody editedAt))

/-- `Store.DeleteByCommentID`. -/
def deleteByCommentID (db : List Event) (commentID : Int) :
    Except String (List Event) :=
  if (db.filter fun r => r.commentID == some commentID).isEmpty then
    .error ("comment " ++ toString commentID ++ " not found")
  else
    .ok (db.filter fun r => !(r.commentID == some commentID))

/-! ## `Store.List` / `Store.ExportList` / `listInternal` (store.go lines 213-312)

`listInternal` builds `SELECT ... WHERE <filters> [AND (occurred_at, id) op
(SELECT occurred_at, id FROM events WHERE id = cursor)] ORDER BY occurred_at
<dir>, id <dir> LIMIT n`.  The cursor subquery looks the cursor row up in the
whole table; if the id is absent the composite comparison is against NULL and
no row qualifies.  `op` is `>` for sort "oldest" (ORDER BY ASC, ASC) and `<`
otherwise (ORDER BY DESC, DESC).  A `nil` filter struct and a `nil`/empty
cursor are both `none` here. -/

/-- `ListFilters` (store.go lines 214-221). -/
structure ListFilters where
  types : List EventType := []
  prNumber : Option Int := none
  githubUser : Option String := none
  since : Option Int := none
  untilTime : Option Int := none  -- `Until` in the Go struct; `until` is reserved in Lean
  excludeCommentReactions : Bool := false
  deriving DecidableEq, Repr

/-- Conjunction of the optional WHERE clauses of `listInternal`. -/
def matchesFilters (f : ListFilters) (r : Event) : Bool :=
  (f.types.isEmpty || f.types.contains r.type) &&
  (match f.prNumber with | none => true | some p => r.prNumber == some p) &&
  (match f.githubUser with | none => true | some u => r.githubUser == u) &&
  (match f.since with | none => true | some t => decide (t ≤ r.occurredAt)) &&
  (match f.untilTime with | none => true | some t => decide (r.occurredAt ≤ t)) &&
  (!f.excludeCommentReactions || !(r.type == EventReaction && r.commentID.isSome))

/-- The rows passing the (possibly nil) filter struct. -/
def filteredRows (db : List Event) (f : Option ListFilters) : List Event :=
  match f with
  | none => db
  | some fl => db.filter (matchesFilters fl)

/-- Strict composite-key comparison `(occurred_at, id) < (occurred_at, id)`. -/
def keyLt (a b : Event) : Bool :=
  decide (a.occurredAt < b.occurredAt) ||
    (a.occurredAt == b.occurredAt && decide (a.id < b.id))

/-- Non-strict composite-key comparison, the ORDER BY ASC comparator. -/
def keyLe (a b : Event) : Bool :=
  decide (a.occurredAt < b.occurredAt) ||
    (a.occurredAt == b.occurredAt && decide (a.id ≤ b.id))

/-- `ORDER BY occurred_at ASC, id ASC` for sort "oldest", otherwise
`ORDER BY occurred_at DESC, id DESC` (the default branch). -/
def rowLe (sort : String) (a b : Event) : Bool :=
  if sort == "oldest" then keyLe a b else keyLe b a

/-- The cursor clause: keep `r` iff `(occurred_at r, id r) op (occurred_at c,
id c)` with `op` as chosen from the sort direction. -/
def cursorKeep (sort : String) (c r : Event) : Bool :=
  if sort == "oldest" then keyLt c r else keyLt r c

/-- Insertion step of the ORDER BY model. -/
def insertOrdered (le : Event → Event → Bool) (a : Event) :
    List Event → List Event
  | [] => [a]
  | b :: l => if le a b then a :: b :: l else b :: insertOrdered le a l

/-- The ORDER BY of `listInternal`: a stable sort of the qualifying rows by
the direction's comparator. -/
def sortRows (le : Event → Event → Bool) : List Event → List Event
  | [] => []
  | a :: l => insertOrdered le a (sortRows le l)

/-- `Store.listInternal` (store.go lines 232-303). -/
def listInternal (db : List Event) (f : Option ListFilters) (sort : String)
    (limit : Nat) (cursor : Option Nat) : List Event :=
  let base := filteredRows db f
  let qualifying :=
    match cursor with
    | none => base
    | some cid =>
      match db.find? fun r => r.id == cid with
      | none => []
      | some c => base.filter (cursorKeep sort c)
  (sortRows (rowLe sort) qualifying).take limit

/-- `Store.List` (store.go lines 224-229): clamps the page size to 50 when the
request is non-positive or above 100.  The Go `limit` is a signed int. -/
def listEvents (db : List Event) (f : Option ListFilters) (sort : String)
    (limit : Int) (cursor : Option Nat) : List Event :=
  let limit := if limit ≤ 0 || limit > 100 then 50 else limit
  listInternal db f sort limit.toNat cursor

/-- `Store.ExportList` (store.go lines 307-312): clamps to 1000 when the
request is non-positive or above 1000. -/
def exportList (db : List Event) (f : Option ListFilters) (sort : String)
    (limit : Int) (cursor : Option Nat) : List Event :=
  let limit := if limit ≤ 0 || limit > 1000 then 1000 else limit
  listInternal db f sort limit.toNat cursor

/-! ## Vote aggregation (store.go: `GetVoters` 341-391, `GetPRVotes` 394-409,
`GetVoter` 488-530)

All three aggregate over rows with
`type = 'reaction' AND choice IS NOT NULL AND comment_id IS NULL`. -/

/-- The rows counted by every vote aggregation query. -/
def voteRows (db : List Event) : List Event :=
  db.filter fun r =>
    r.type == EventReaction && r.choice.isSome && r.commentID == none

/-- `Store.GetPRVotes`: (upvotes, downvotes) for one PR. -/
def getPRVotes (db : List Event) (prNumber : Int) : Nat × Nat :=
  let rows := db.filter fun r =>
    r.type == EventReaction && r.prNumber == some prNumber &&
      r.choice.isSome && r.commentID == none
  ((rows.filter fun r => r.choice == some 1).length,
   (rows.filter fun r => r.choice == some (-1)).length)

/-- `VoterSummary` (`internal/feed/voter.go`). -/
structure VoterSummary where
  githubUser : String
  githubUserID : Int
  totalVotes : Nat
  upvotes : Nat
  downvotes : Nat
  firstVote : Option Int
  lastVote : Option Int
  prsVotedOn : List Int
  uniquePRs : Nat
  deriving DecidableEq, Repr

/-- The GROUP BY (github_user, github_user_id) keys, in first-appearance
order. -/
def voterGroupKeys (db : List Event) : List (String × Int) :=
  ((voteRows db).map fun r => (r.githubUser, r.githubUserID)).eraseDups

/-- One group's aggregates: COUNT(*), the two FILTERed counts, MIN/MAX
occurred_at, and `array_agg(DISTINCT pr_number ORDER BY pr_number) FILTER
(WHERE pr_number IS NOT NULL)` with `UniquePRs := len(PRsVotedOn)`. -/
def voterSummaryOf (db : List Event) (key : String × Int) : VoterSummary :=
  let rows := (voteRows db).filter fun r =>
    r.githubUser == key.1 && r.githubUserID == key.2
  let prs := ((rows.filterMap (·.prNumber)).eraseDups).mergeSort (· ≤ ·)
  { githubUser := key.1
    githubUserID := key.2
    totalVotes := rows.length
    upvotes := (rows.filter fun r => r.choice == some 1).length
    downvotes := (rows.filter fun r => r.choice == some (-1)).length
    firstVote := (rows.map (·.occurredAt)).min?
    lastVote := (rows.map (·.occurredAt)).max?
    prsVotedOn := prs
    uniquePRs := prs.length }

/-- `Store.GetVoters`: all groups, ordered by total_votes descending. -/
def getVoters (db : List Event) : List VoterSummary :=
  ((voterGroupKeys db).map (voterSummaryOf db)).mergeSort
    fun a b => b.totalVotes ≤ a.totalVotes

/-- `Store.GetVoter`: the single group for one github_user (the first, if the
user appears under several user ids); ErrNoRows becomes a not-found error. -/
def getVoter (db : List Event) (githubUser : String) :
    Except String VoterSummary :=
  match (voterGroupKeys db).filter (fun k => k.1 == githubUser) with
  | [] => .error ("voter not found: " ++ githubUser)
  | k :: _ => .ok (voterSummaryOf db k)

/-! ## The two PR classifiers (C3)

Live normalizer: the `PullRequestEvent` branch of `Ingester.parseGitHubEvent`
(`internal/feed/ingester.go` lines 277-324).  Backfill: the per-PR
classification in `cmd/backfill/main.go` lines 83-97.  JSON decoding and the
openPRs side effect are outside the classification and are not modelled; the
payload structs carry exactly the fields the branch reads. -/

/-- The fields of `github.PullRequestEventPayload` read by the branch. -/
structure PullRequestEventPayload where
  action : String
  number : Int
  prID : Int
  merged : Bool
  deriving DecidableEq, Repr

/-- The fields of the raw Events-API envelope read by the branch. -/
structure RawGitHubEvent where
  actorLogin : String
  actorID : Int
  payloadJSON : String
  createdAt : Int
  deriving DecidableEq, Repr

/-- The inner `switch payload.Action` of the `PullRequestEvent` branch,
including the merged-flag reclassification of the "closed" action. -/
def classifyPRAction (action : String) (merged : Bool) : Option EventType :=
  match action with
  | "opened" => some EventPROpened
  | "closed" => if merged then some EventPRMerged else some EventPRClosed
  | "reopened" => some EventPRReopened
  | "edited" => some EventPREdited
  | "synchronize" => some EventPRSynchronized
  | _ => none

/-- The `PullRequestEvent` case of `parseGitHubEvent`: zero or one canonical
events (unknown actions are skipped, not errors).  `hash` models
`computeContentHash`. -/
def parseGitHubEventPR (hash : String → String) (raw : RawGitHubEvent)
    (payload : PullRequestEventPayload) : List Event :=
  match classifyPRAction payload.action payload.merged with
  | none => []
  | some eventType =>
    [{ id := 0
       type := eventType
       githubUser := raw.actorLogin
       githubUserID := raw.actorID
       prNumber := some payload.number
       githubID := some payload.prID
       payload := raw.payloadJSON
       contentHash := hash raw.payloadJSON
       occurredAt := raw.createdAt }]

/-- The fields of `github.GitHubPR` read by the backfill classifier. -/
structure GitHubPR where
  number : Int
  prID : Int
  state : String
  merged : Bool
  deriving DecidableEq, Repr

/-- The backfill job's event-type/action choice for one PR
(`cmd/backfill/main.go` lines 83-97). -/
def backfillClassifyPR (pr : GitHubPR) : EventType × String :=
  if pr.state == "closed" then
    (if pr.merged then EventPRMerged else EventPRClosed, "closed")
  else
    (EventPROpened, "opened")

/-! ## Rate-limit backoff (C7)

`fetchAndProcessEvents` (`internal/feed/ingester.go` lines 183-199): after the
events request, if the reported remaining quota is below 10 and the reset time
is non-zero, it computes `sleepDur := time.Until(reset)` and calls
`time.Sleep(sleepDur)` only when `0 < sleepDur < 15*time.Minute`.  Durations
are in nanoseconds (Go `time.Duration`); `untilReset` is the signed distance
from now to the reported reset. -/

/-- Nanoseconds slept by the backoff of `fetchAndProcessEvents` as a function
of the parsed rate-limit headers. -/
def eventsCycleBackoffSleep (remaining : Int) (resetIsZero : Bool)
    (untilReset : Int) : Int :=
  if remaining < 10 && !resetIsZero then
    if untilReset > 0 && untilReset < 15 * 60 * 1000000000 then untilReset
    else 0
  else 0

/-! ## Paginating fetchers (C8)

`GetRepoEvents` (unnamed github client, lines 341-403), `fetchAllReactions`
(lines 606-637) and `GetAllPRs` (lines 442-481).  The remote server is
abstracted as a map from the page number requested to the response; a response
is a network/decode failure, a non-200 status (both cause the same control
flow at every use site), or a 200 page carrying its items and whether a
`Link: rel="next"` header is present.  `GetRepoEvents`'s first request can
additionally yield 304 Not Modified. -/

/-- Response to one paginated request. -/
inductive PageResult (α : Type) where
  | fail
  | page (items : List α) (next : Bool)
  deriving DecidableEq, Repr

/-- Response to `GetRepoEvents`'s first, ETag-conditional request. -/
inductive FirstPageResult (α : Type) where
  | fail
  | notModified
  | page (items : List α) (next : Bool)
  deriving DecidableEq, Repr

/-- Result of `GetRepoEvents`: an error return, the 304 "no new events"
return (`nil` events, `nil` error), or the accumulated events. -/
inductive RepoEventsResult (α : Type) where
  | fail
  | notModified
  | events (items : List α)
  deriving DecidableEq, Repr

/-- The `for page := 2; page <= 10; page++` loop of `GetRepoEvents`: stops at
a missing next link, at any failure (keeping prior pages: "Partial results are
fine"), or at an empty page.  `srv p` is the response to requesting page `p`. -/
def eventsPagesLoop (srv : Nat → PageResult α) (pageNo : Nat) (next : Bool) :
    List α :=
  if _h : pageNo > 10 then []
  else if !next then []
  else
    match srv pageNo with
    | .fail => []
    | .page items next' =>
      if items.isEmpty then []
      else items ++ eventsPagesLoop srv (pageNo + 1) next'
termination_by 11 - pageNo
decreasing_by omega

/-- `Client.GetRepoEvents`: first (conditional) request, then up to nine
link-following page requests. -/
def getRepoEvents (first : FirstPageResult α) (srv : Nat → PageResult α) :
    RepoEventsResult α :=
  match first with
  | .fail => .fail
  | .notModified => .notModified
  | .page items next => .events (items ++ eventsPagesLoop srv 2 next)

/-- The `for page := 1; page <= 50; page++` loop of `fetchAllReactions`.
Failures return the partial accumulation together with the error (the `Bool`
is "an error was returned"); the loop also stops at a missing next link or an
empty page, and at the 50-page safety cap. -/
def reactionsPagesLoop (srv : Nat → PageResult α) (pageNo : Nat)
    (acc : List α) : List α × Bool :=
  if _h : pageNo > 50 then (acc, false)
  else
    match srv pageNo with
    | .fail => (acc, true)
    | .page items next =>
      if !next || items.isEmpty then (acc ++ items, false)
      else reactionsPagesLoop srv (pageNo + 1) (acc ++ items)
termination_by 51 - pageNo
decreasing_by omega

/-- `Client.fetchAllReactions` (also the body of `GetIssueReactions` and
`GetCommentReactions`). -/
def fetchAllReactions (srv : Nat → PageResult α) : List α × Bool :=
  reactionsPagesLoop srv 1 []

/-- Result of `GetAllPRs`: success, an error return (which discards the
accumulated pages: the Go code returns `nil, err`), or the unbounded `for`
loop still running after the modelled number of iterations. -/
inductive AllPRsResult (α : Type) where
  | ok (prs : List α)
  | fail
  | running
  deriving DecidableEq, Repr

/-- The unbounded `for` loop of `GetAllPRs`: manual `page++` iteration
(perPage = 100), no page cap, no use of the Link header; stops on an empty or
short page; on any failure returns the error alone.  `fuel` bounds how many
iterations we unfold. -/
def allPRsLoop (srv : Nat → PageResult α) (fuel pageNo : Nat) (acc : List α) :
    AllPRsResult α :=
  match fuel with
  | 0 => .running
  | fuel + 1 =>
    match srv pageNo with
    | .fail => .fail
    | .page items _ =>
      if items.isEmpty then .ok acc
      else if items.length < 100 then .ok (acc ++ items)
      else allPRsLoop srv fuel (pageNo + 1) (acc ++ items)

/-- `Client.GetAllPRs`. -/
def getAllPRs (srv : Nat → PageResult α) (fuel : Nat) : AllPRsResult α :=
  allPRsLoop srv fuel 1 []

/-- Concatenation of the item lists of pages `lo .. hi` (empty when
`hi < lo`); used to state what the paginating fetchers accumulate. -/
def pageConcat (its : Nat → List α) (lo hi : Nat) : List α :=
  ((List.range' lo (hi + 1 - lo)).map its).flatten

/-! ## Helper lemmas -/

theorem listInternal_length_le (db : List Event) (f : Option ListFilters)
    (sort : String) (n : Nat) (c : Option Nat) :
    (listInternal db f sort n c).length ≤ n := by
  simp only [listInternal]
  exact (List.length_take_le _ _)

/-- Claim C10: `List` silently clamps out-of-range page sizes: a requested
limit that is zero, negative, or above 100 runs the query with page size
exactly 50, and `ExportList` clamps zero/negative/above-1000 requests to
exactly 1000; consequently `List` never returns more than 100 rows per page
and `ExportList` never more than 1000. -/
theorem C10_list_clamps_page_size (db : List Event) (f : Option ListFilters)
    (sort : String) (limit : Int) (cursor : Option Nat) :
    ((limit ≤ 0 ∨ 100 < limit) →
      listEvents db f sort limit cursor = listInternal db f sort 50 cursor) ∧
    (listEvents db f sort limit cursor).length ≤ 100 ∧
    ((limit ≤ 0 ∨ 1000 < limit) →
      exportList db f sort limit cursor = listInternal db f sort 1000 cursor) ∧
    (exportList db f sort limit cursor).length ≤ 1000 := by
  have key : ∀ (m : Int) (bound : Nat), m ≤ (bound : Int) →
      (listInternal db f sort m.toNat cursor).length ≤ bound := by
    intro m bound hm
    exact le_trans (listInternal_length_le ..) (by omega)
  refine ⟨?_, ?_, ?_, ?_⟩
  · intro h
    have hb : (decide (limit ≤ 0) || decide (limit > 100)) = true := by
      rcases h with h | h <;> simp [h]
    simp [listEvents, hb]
  · by_cases hc : (decide (limit ≤ 0) || decide (limit > 100)) = true
    · simp only [listEvents, hc, if_true]
      exact key 50 100 (by norm_num)
    · have hc' : (decide (limit ≤ 0) || decide (limit > 100)) = false := by
        revert hc; cases (decide (limit ≤ 0) || decide (limit > 100)) <;> simp
      have hle : limit ≤ 100 := by
        simp only [Bool.or_eq_false_iff, decide_eq_false_iff_not, not_le, not_lt] at hc'
        omega
      simp only [listEvents, hc', Bool.false_eq_true, if_false]
      exact key limit 100 hle
  · intro h
    have hb : (decide (limit ≤ 0) || decide (limit > 1000)) = true := by
      rcases h with h | h <;> simp [h]
    simp [exportList, hb]
  · by_cases hc : (decide (limit ≤ 0) || decide (limit > 1000)) = true
    · simp only [exportList, hc, if_true]
      exact key 1000 1000 (by norm_num)
    · have hc' : (decide (limit ≤ 0) || decide (limit > 1000)) = false := by
        revert hc; cases (decide (limit ≤ 0) || decide (limit > 1000)) <;> simp
      have hle : limit ≤ 1000 := by
        simp only [Bool.or_eq_false_iff, decide_eq_false_iff_not, not_le, not_lt] at hc'
        omega
      simp only [exportList, hc', Bool.false_eq_true, if_false]
      exact key limit 1000 hle

/-- Witness for C10 at a concrete out-of-range limit. -/
theorem C10_witness :
    ((-3 : Int) ≤ 0 ∨ (100 : Int) < -3) ∧
      listEvents [] none "newest" (-3) none = listInternal [] none "newest" 50 none :=
  ⟨Or.inl (by norm_num),
   (C10_list_clamps_page_size [] none "newest" (-3) none).1 (Or.inl (by norm_num))⟩

/-- Claim C3: for a closed pull request, both producers — the live normalizer
(`parseGitHubEvent` on a `PullRequestEvent` with action "closed") and the
backfill job (for a PR with state "closed") — emit type "pr_merged" when the
embedded pull-request object has merged=true, and "pr_closed" when
merged=false. -/
theorem C3_merge_reclassification (hash : String → String)
    (raw : RawGitHubEvent) (payload : PullRequestEventPayload) (pr : GitHubPR) :
    (payload.action = "closed" →
      (payload.merged = true →
        (parseGitHubEventPR hash raw payload).map (·.type) = [EventPRMerged]) ∧
      (payload.merged = false →
        (parseGitHubEventPR hash raw payload).map (·.type) = [EventPRClosed])) ∧
    (pr.state = "closed" →
      (pr.merged = true → (backfillClassifyPR pr).1 = EventPRMerged) ∧
      (pr.merged = false → (backfillClassifyPR pr).1 = EventPRClosed)) := by
  constructor
  · intro ha
    constructor <;> intro hm <;>
      simp [parseGitHubEventPR, classifyPRAction, ha, hm]
  · intro hs
    constructor <;> intro hm <;>
      simp [backfillClassifyPR, hs, hm]

/-- Witness for C3 at a concrete merged closed PR. -/
theorem C3_witness :
    (parseGitHubEventPR id ⟨"alice", 1, "{}", 0⟩ ⟨"closed", 7, 70, true⟩).map
        (·.type) = [EventPRMerged] ∧
      (backfillClassifyPR ⟨7, 70, "closed", true⟩).1 = EventPRMerged :=
  ⟨((C3_merge_reclassification id ⟨"alice", 1, "{}", 0⟩ ⟨"closed", 7, 70, true⟩
      ⟨7, 70, "closed", true⟩).1 rfl).1 rfl,
   ((C3_merge_reclassification id ⟨"alice", 1, "{}", 0⟩ ⟨"closed", 7, 70, true⟩
      ⟨7, 70, "closed", true⟩).2 rfl).1 rfl⟩

/-- Counterexample for C7 as stated: with remaining quota 5 (below the
low-water mark 10) and the reset exactly 15 minutes (900 s) in the future, the
events cycle sleeps 0 ns — it does not wait out the reset, because the code
only sleeps when the reset is strictly less than 15 minutes away. -/
theorem C7_counterexample :
    eventsCycleBackoffSleep 5 false (900 * 1000000000) = 0 ∧
      ¬(900 * 1000000000 ≤ eventsCycleBackoffSleep 5 false (900 * 1000000000)) := by
  constructor
  · decide
  · decide

/-- Claim C7 (amended): when a response reports remaining quota below the
low-water mark (10) and a non-zero reset time N nanoseconds in the future with
0 < N, the events cycle sleeps exactly N nanoseconds before returning —
provided N is less than 15 minutes; there is no added safety margin, and for
N ≥ 15 minutes no sleep happens at all. -/
theorem C7_backoff_amended (remaining untilReset : Int)
    (hrem : remaining < 10) (hpos : 0 < untilReset) :
    (untilReset < 15 * 60 * 1000000000 →
      eventsCycleBackoffSleep remaining false untilReset = untilReset) ∧
    (15 * 60 * 1000000000 ≤ untilReset →
      eventsCycleBackoffSleep remaining false untilReset = 0) := by
  constructor
  · intro hlt
    simp [eventsCycleBackoffSleep, hrem, hpos, hlt]
    omega
  · intro hge
    have hnlt : ¬(untilReset < 15 * 60 * 1000000000) := by omega
    simp [eventsCycleBackoffSleep, hrem, hpos, hnlt]
    omega

/-- Witness for C7 (amended) at remaining = 5, reset 60 s away. -/
theorem C7_witness :
    (5 : Int) < 10 ∧ (0 : Int) < 60 * 1000000000 ∧
      eventsCycleBackoffSleep 5 false (60 * 1000000000) = 60 * 1000000000 :=
  ⟨by norm_num, by norm_num,
   (C7_backoff_amended 5 (60 * 1000000000) (by norm_num) (by norm_num)).1
     (by norm_num)⟩

/-- A row whose comment_id is set never passes the
`comment_id IS NULL` clause of the vote aggregations. -/
theorem voteRows_append_comment_reaction (db : List Event) (r : Event)
    (cid : Int) (hc : r.commentID = some cid) :
    voteRows (db ++ [r]) = voteRows db := by
  simp [voteRows, List.filter_append, hc]

/-- Claim C5: a reaction on a comment (comment identifier set) contributes
neither to `GetPRVotes` for any PR, nor to `GetVoters`, nor to `GetVoter` for
any user: adding such a row to the store leaves all three aggregations
unchanged. -/
theorem C5_comment_reactions_excluded (db : List Event) (r : Event) (cid : Int)
    (prNumber : Int) (githubUser : String)
    (_ht : r.type = EventReaction) (hc : r.commentID = some cid) :
    getPRVotes (db ++ [r]) prNumber = getPRVotes db prNumber ∧
    getVoters (db ++ [r]) = getVoters db ∧
    getVoter (db ++ [r]) githubUser = getVoter db githubUser := by
  have hv := voteRows_append_comment_reaction db r cid hc
  have hs : voterSummaryOf (db ++ [r]) = voterSummaryOf db := by
    funext key
    simp only [voterSummaryOf, hv]
  refine ⟨?_, ?_, ?_⟩
  · simp [getPRVotes, List.filter_append, hc]
  · simp only [getVoters, voterGroupKeys, hv, hs]
  · simp only [getVoter, voterGroupKeys, hv, hs]

/-- Witness for C5: a thumbs-up on a comment changes no aggregate. -/
theorem C5_witness :
    (getPRVotes
        ([{ id := 1, type := EventReaction, githubUser := "bob",
            githubUserID := 2, prNumber := some 4, choice := some 1 }] ++
          [{ id := 2, type := EventReaction, githubUser := "carol",
             githubUserID := 3, prNumber := some 4, commentID := some 55,
             choice := some 1 }]) 4 =
      getPRVotes
        [{ id := 1, type := EventReaction, githubUser := "bob",
           githubUserID := 2, prNumber := some 4, choice := some 1 }] 4) :=
  (C5_comment_reactions_excluded
    [{ id := 1, type := EventReaction, githubUser := "bob",
       githubUserID := 2, prNumber := some 4, choice := some 1 }]
    { id := 2, type := EventReaction, githubUser := "carol",
      githubUserID := 3, prNumber := some 4, commentID := some 55,
      choice := some 1 }
    55 4 "bob" rfl rfl).1

/-- `applyCommentEdit` never changes a row's comment_id. -/
theorem applyCommentEdit_commentID (hash : String → String) (k : Int)
    (p b : String) (t : Int) (r : Event) :
    (applyCommentEdit hash k p b t r).commentID = r.commentID := by
  unfold applyCommentEdit
  split <;> rfl

/-- The UPDATE of `UpdateCommentEdit` affects a row iff a row with the
comment id exists, so the call succeeds exactly then and returns the mapped
table. -/
theorem updateCommentEdit_ok (hash : String → String) (db : List Event)
    (k : Int) (p b : String) (t : Int)
    (hex : ∃ r ∈ db, r.commentID = some k) :
    updateCommentEdit hash db k p b t =
      .ok (db.map (applyCommentEdit hash k p b t)) := by
  unfold updateCommentEdit
  rw [if_neg]
  simp only [List.isEmpty_eq_true, List.filter_eq_nil_iff, beq_iff_eq, not_forall]
  obtain ⟨r, hr, hk⟩ := hex
  exact ⟨r, hr, by simp [hk]⟩

/-- Mapping the edit over the table preserves the existence of a row with the
comment id. -/
theorem exists_commentID_map (hash : String → String) (k : Int) (p b : String)
    (t : Int) (db : List Event) (hex : ∃ r ∈ db, r.commentID = some k) :
    ∃ r ∈ db.map (applyCommentEdit hash k p b t), r.commentID = some k := by
  obtain ⟨r, hr, hk⟩ := hex
  exact ⟨applyCommentEdit hash k p b t r, List.mem_map_of_mem _ hr,
    by rw [applyCommentEdit_commentID]; exact hk⟩

/-- Claim C6: each successful `UpdateCommentEdit` prepends the single entry
{previousBody, editedAt} to the edit-history list and replaces payload and
content fingerprint; three sequential edits to a comment whose stored rows
start with empty histories leave every row of that comment with history
[{b2,t3}, {b1,t2}, {b0,t1}] — first entry the most recent previous body, last
entry the original body — and payload/fingerprint of the final edit. -/
theorem C6_edit_history_ordering (hash : String → String) (db : List Event)
    (k : Int) (p1 p2 p3 b0 b1 b2 : String) (t1 t2 t3 : Int)
    (hex : ∃ r ∈ db, r.commentID = some k)
    (hempty : ∀ r ∈ db, r.commentID = some k → r.editHistory = []) :
    ∃ db1 db2 db3,
      updateCommentEdit hash db k p1 b0 t1 = .ok db1 ∧
      updateCommentEdit hash db1 k p2 b1 t2 = .ok db2 ∧
      updateCommentEdit hash db2 k p3 b2 t3 = .ok db3 ∧
      (∃ r ∈ db3, r.commentID = some k) ∧
      ∀ r ∈ db3, r.commentID = some k →
        r.editHistory = [⟨b2, t3⟩, ⟨b1, t2⟩, ⟨b0, t1⟩] ∧
        r.editHistory.head? = some ⟨b2, t3⟩ ∧
        r.editHistory.getLast? = some ⟨b0, t1⟩ ∧
        r.payload = p3 ∧ r.contentHash = hash p3 := by
  have h1 := updateCommentEdit_ok hash db k p1 b0 t1 hex
  have hex1 := exists_commentID_map hash k p1 b0 t1 db hex
  have h2 := updateCommentEdit_ok hash _ k p2 b1 t2 hex1
  have hex2 := exists_commentID_map hash k p2 b1 t2 _ hex1
  have h3 := updateCommentEdit_ok hash _ k p3 b2 t3 hex2
  have hex3 := exists_commentID_map hash k p3 b2 t3 _ hex2
  refine ⟨_, _, _, h1, h2, h3, hex3, ?_⟩
  intro r hr hk
  simp only [List.map_map, List.mem_map] at hr
  obtain ⟨r0, hr0, hreq⟩ := hr
  have hk0 : r0.commentID = some k := by
    have := hreq ▸ hk
    simpa [Function.comp, applyCommentEdit_commentID] using this
  have hhist := hempty r0 hr0 hk0
  subst hreq
  simp [Function.comp, applyCommentEdit, hk0, hhist]

/-- Witness for C6: three edits of comment 55 starting from body "hello". -/
theorem C6_witness :
    ∃ db1 db2 db3,
      updateCommentEdit id
          [{ id := 1, type := EventIssueComment, githubUser := "bob",
             githubUserID := 2, commentID := some 55, payload := "hello" }]
          55 "p1" "hello" 10 = .ok db1 ∧
      updateCommentEdit id db1 55 "p2" "b1" 20 = .ok db2 ∧
      updateCommentEdit id db2 55 "p3" "b2" 30 = .ok db3 ∧
      (∃ r ∈ db3, r.commentID = some 55) ∧
      ∀ r ∈ db3, r.commentID = some 55 →
        r.editHistory = [⟨"b2", 30⟩, ⟨"b1", 20⟩, ⟨"hello", 10⟩] ∧
        r.editHistory.head? = some ⟨"b2", 30⟩ ∧
        r.editHistory.getLast? = some ⟨"hello", 10⟩ ∧
        r.payload = "p3" ∧ r.contentHash = id "p3" :=
  C6_edit_history_ordering id
    [{ id := 1, type := EventIssueComment, githubUser := "bob",
       githubUserID := 2, commentID := some 55, payload := "hello" }]
    55 "p1" "p2" "p3" "hello" "b1" "b2" 10 20 30
    ⟨_, List.mem_singleton_self _, rfl⟩
    (by intro r hr _; simp at hr; subst hr; rfl)

/-- Claim C9: `UpdateCommentEdit` and `DeleteByCommentID` return a not-found
error exactly when no stored row carries the comment identifier; when a row
exists they succeed (update returning the mapped table, delete the filtered
one), and in the not-found case the underlying UPDATE/DELETE statements leave
the table unchanged. -/
theorem C9_not_found_iff (hash : String → String) (db : List Event) (k : Int)
    (p b : String) (t : Int) :
    ((∃ msg, updateCommentEdit hash db k p b t = .error msg) ↔
      ∀ r ∈ db, r.commentID ≠ some k) ∧
    ((∃ msg, deleteByCommentID db k = .error msg) ↔
      ∀ r ∈ db, r.commentID ≠ some k) ∧
    ((∃ r ∈ db, r.commentID = some k) →
      updateCommentEdit hash db k p b t =
          .ok (db.map (applyCommentEdit hash k p b t)) ∧
        deleteByCommentID db k =
          .ok (db.filter fun r => !(r.commentID == some k))) ∧
    ((∀ r ∈ db, r.commentID ≠ some k) →
      db.map (applyCommentEdit hash k p b t) = db ∧
        (db.filter fun r => !(r.commentID == some k)) = db) := by
  have hcond : (db.filter fun r => r.commentID == some k).isEmpty = true ↔
      ∀ r ∈ db, r.commentID ≠ some k := by
    simp [List.isEmpty_eq_true, List.filter_eq_nil_iff]
  refine ⟨?_, ?_, ?_, ?_⟩
  · constructor
    · rintro ⟨msg, hmsg⟩
      by_contra hall
      rw [← hcond] at hall
      simp only [updateCommentEdit, Bool.not_eq_true] at hmsg
      rw [if_neg (by simp [hall])] at hmsg
      exact Except.noConfusion hmsg
    · intro hall
      exact ⟨"comment " ++ toString k ++ " not found",
        by simp [updateCommentEdit, hcond.mpr hall]⟩
  · constructor
    · rintro ⟨msg, hmsg⟩
      by_contra hall
      rw [← hcond] at hall
      simp only [deleteByCommentID, Bool.not_eq_true] at hmsg
      rw [if_neg (by simp [hall])] at hmsg
      exact Except.noConfusion hmsg
    · intro hall
      exact ⟨"comment " ++ toString k ++ " not found",
        by simp [deleteByCommentID, hcond.mpr hall]⟩
  · intro hex
    have hne : ¬((db.filter fun r => r.commentID == some k).isEmpty = true) := by
      rw [hcond]
      push_neg
      obtain ⟨r, hr, hk⟩ := hex
      exact ⟨r, hr, hk⟩
    exact ⟨by simp [updateCommentEdit, hne], by simp [deleteByCommentID, hne]⟩
  · intro hall
    constructor
    · have hmap : List.map (applyCommentEdit hash k p b t) db = List.map id db :=
        List.map_congr_left fun r hr => by simp [applyCommentEdit, hall r hr]
      simpa using hmap
    · apply List.filter_eq_self.mpr
      intro r hr
      simp [hall r hr]

/-- Witness for C9: on an empty store, both mutations report not-found. -/
theorem C9_witness :
    (∃ msg, updateCommentEdit id [] 55 "p" "b" 0 = .error msg) ∧
      ∃ msg, deleteByCommentID [] 55 = .error msg :=
  ⟨(C9_not_found_iff id [] 55 "p" "b" 0).1.mpr (by simp),
   (C9_not_found_iff id [] 55 "p" "b" 0).2.1.mpr (by simp)⟩

/-! ## The dual dedup key (C1) -/

/-- The dedup tuple of the WHERE NOT EXISTS clause: same content_hash, type,
github_user and occurred_at. -/
def sameDedupTuple (a b : Event) : Bool :=
  a.contentHash == b.contentHash && a.type == b.type &&
    a.githubUser == b.githubUser && a.occurredAt == b.occurredAt

/-- A stored row matches a candidate on the dual dedup key: equal non-NULL
github_id, or equal dedup tuple. -/
def dupKeyMatches (e r : Event) : Bool :=
  (e.githubID.isSome && r.githubID == e.githubID) || sameDedupTuple r e

/-- Claim C1: `Insert` is idempotent for the dual dedup key.  If the store has
no row matching either event on either key (and no star/fork block applies to
the first), then after inserting `e` a second insert of an event `e'` that
shares `e`'s non-NULL github_id or `e`'s dedup tuple is a no-op, and exactly
one row — the one created by the first insert — matches `e'` on the dual key. -/
theorem C1_insert_idempotent (db : List Event) (e e' : Event) (now now' : Int)
    (hfresh : ∀ r ∈ db, dupKeyMatches e r = false)
    (hfresh' : ∀ r ∈ db, dupKeyMatches e' r = false)
    (hsf : starForkDupExists db e = false)
    (hkey : (e.githubID.isSome ∧ e'.githubID = e.githubID) ∨
      sameDedupTuple e' e = true) :
    insertEvent db e now =
        db ++ [{ e with id := freshId db, ingestedAt := now }] ∧
      insertEvent (insertEvent db e now) e' now' = insertEvent db e now ∧
      (insertEvent db e now).filter (dupKeyMatches e') =
        [{ e with id := freshId db, ingestedAt := now }] := by
  have hcontent : contentDupExists db e = false := by
    rw [contentDupExists, List.any_eq_false]
    intro r hr
    have h := hfresh r hr
    simp only [dupKeyMatches, Bool.or_eq_false_iff] at h
    have h2 := h.2
    rw [sameDedupTuple] at h2
    simp [h2]
  have hgid : githubIDConflict db e = false := by
    rw [githubIDConflict]
    cases hgs : e.githubID.isSome with
    | false => simp
    | true =>
      simp only [Bool.true_and]
      rw [List.any_eq_false]
      intro r hr
      have h1 : (e.githubID.isSome && (r.githubID == e.githubID)) = false := by
        have h := hfresh r hr
        simp only [dupKeyMatches, Bool.or_eq_false_iff] at h
        exact h.1
      rw [hgs, Bool.true_and] at h1
      simp [h1]
  have h1 : insertEvent db e now =
      db ++ [{ e with id := freshId db, ingestedAt := now }] := by
    rw [insertEvent, if_neg (by simp [hcontent, hsf]), if_neg (by simp [hgid])]
  set n : Event := { e with id := freshId db, ingestedAt := now } with hn
  have hngid : n.githubID = e.githubID := rfl
  have e1 : n.contentHash = e.contentHash := rfl
  have e2 : n.type = e.type := rfl
  have e3 : n.githubUser = e.githubUser := rfl
  have e4 : n.occurredAt = e.occurredAt := rfl
  have hmatch : dupKeyMatches e' n = true := by
    rcases hkey with ⟨hsome, heq⟩ | htup
    · have hs' : e'.githubID.isSome = true := by rw [heq]; exact hsome
      simp only [dupKeyMatches, Bool.or_eq_true, Bool.and_eq_true]
      left
      refine ⟨hs', ?_⟩
      rw [hngid, heq]
      exact beq_self_eq_true _
    · simp only [dupKeyMatches, Bool.or_eq_true]
      right
      simp only [sameDedupTuple, Bool.and_eq_true, beq_iff_eq] at htup ⊢
      exact ⟨⟨⟨htup.1.1.1.symm, htup.1.1.2.symm⟩, htup.1.2.symm⟩, htup.2.symm⟩
  have h2 : insertEvent (db ++ [n]) e' now' = db ++ [n] := by
    rw [insertEvent]
    by_cases hblock :
        (contentDupExists (db ++ [n]) e' || starForkDupExists (db ++ [n]) e') = true
    · rw [if_pos hblock]
    · rw [if_neg hblock, if_pos]
      rw [githubIDConflict]
      simp only [Bool.not_eq_true, Bool.or_eq_false_iff] at hblock
      rcases hkey with ⟨hsome, heq⟩ | htup
      · simp only [Bool.and_eq_true]
        refine ⟨by rw [heq]; exact hsome, ?_⟩
        rw [List.any_eq_true]
        refine ⟨n, by simp, ?_⟩
        show (n.githubID == e'.githubID) = true
        rw [hngid, heq]
        exact beq_self_eq_true _
      · exfalso
        have hcd : contentDupExists (db ++ [n]) e' = true := by
          rw [contentDupExists, List.any_eq_true]
          refine ⟨n, by simp, ?_⟩
          simp only [sameDedupTuple, Bool.and_eq_true, beq_iff_eq] at htup
          simp [e1, e2, e3, e4, htup.1.1.1, htup.1.1.2, htup.1.2, htup.2]
        rw [hblock.1] at hcd
        exact Bool.false_ne_true hcd
  refine ⟨h1, ?_, ?_⟩
  · rw [h1, h2]
  · rw [h1, List.filter_append]
    have hdb : db.filter (dupKeyMatches e') = [] :=
      List.filter_eq_nil_iff.mpr fun r hr => by simp [hfresh' r hr]
    simp [hdb, hmatch]

/-- Concrete event used by the C1 witness. -/
def c1Event : Event :=
  { id := 0, type := EventPROpened, githubUser := "alice", githubUserID := 1,
    githubID := some 100, payload := "pl", contentHash := "h", occurredAt := 5 }

/-- Witness for C1: inserting the same PR event twice into an empty store. -/
theorem C1_witness :
    insertEvent [] c1Event 3 =
        [] ++ [{ c1Event with id := freshId [], ingestedAt := 3 }] ∧
      insertEvent (insertEvent [] c1Event 3) c1Event 4 = insertEvent [] c1Event 3 ∧
      (insertEvent [] c1Event 3).filter (dupKeyMatches c1Event) =
        [{ c1Event with id := freshId [], ingestedAt := 3 }] :=
  C1_insert_idempotent [] c1Event c1Event 3 4 (by simp) (by simp) (by decide)
    (Or.inl ⟨by decide, rfl⟩)

/-- Claim C4: the store keeps at most one star/fork row per (type, actor).
Part 1: `Insert` preserves the at-most-one invariant for any star/fork
(type, actor) pair.  Part 2 (the spec's scenario): after a star/fork event by
some actor is inserted, inserting a second event of the same type by the same
actor — different github_id and different content fingerprint — is a no-op,
and the sole surviving (type, actor) row is the first one, keeping its
github_id. -/
theorem length_filter_singleton_le (p : Event → Bool) (x : Event) :
    (List.filter p [x]).length ≤ 1 := by
  by_cases h : p x = true <;> simp [List.filter_cons, h]

theorem C4_star_fork_narrowing (db : List Event) (e e1 e2 : Event)
    (now now1 now2 : Int) (t : EventType) (u : String)
    (htype : t = EventStar ∨ t = EventFork)
    (hinv : ((db.filter fun r => r.type == t && r.githubUser == u).length ≤ 1))
    (ht1 : e1.type = t) (hu1 : e1.githubUser = u)
    (ht2 : e2.type = t) (hu2 : e2.githubUser = u)
    (_hgid : e2.githubID ≠ e1.githubID) (_hhash : e2.contentHash ≠ e1.contentHash)
    (hc1 : contentDupExists db e1 = false)
    (hs1 : starForkDupExists db e1 = false)
    (hg1 : githubIDConflict db e1 = false) :
    (((insertEvent db e now).filter fun r =>
        r.type == t && r.githubUser == u).length ≤ 1) ∧
      insertEvent (insertEvent db e1 now1) e2 now2 = insertEvent db e1 now1 ∧
      ((insertEvent db e1 now1).filter fun r =>
          r.type == t && r.githubUser == u) =
        [{ e1 with id := freshId db, ingestedAt := now1 }] ∧
      ({ e1 with id := freshId db, ingestedAt := now1 } : Event).githubID =
        e1.githubID := by
  have hsfek : ∀ (x : Event), x.type = t →
      (x.type == EventStar || x.type == EventFork) = true := by
    intro x hx
    rcases htype with h | h <;> simp [hx, h, EventStar, EventFork]
  constructor
  · -- invariant preservation
    by_cases hb1 : (contentDupExists db e || starForkDupExists db e) = true
    · rw [insertEvent, if_pos hb1]
      exact hinv
    · by_cases hb2 : githubIDConflict db e = true
      · rw [insertEvent, if_neg hb1, if_pos hb2]
        exact hinv
      · rw [insertEvent, if_neg hb1, if_neg hb2, List.filter_append]
        by_cases hme : (e.type == t && e.githubUser == u) = true
        · -- the candidate matches (t, u): the star/fork clause required a
          -- (t, u)-free table, so the previously filtered rows are empty
          have hb1' : (contentDupExists db e || starForkDupExists db e) = false :=
            Bool.eq_false_iff.mpr hb1
          have hsfe : starForkDupExists db e = false :=
            (Bool.or_eq_false_iff.mp hb1').2
          simp only [Bool.and_eq_true, beq_iff_eq] at hme
          have hempty :
              (db.filter fun r => r.type == t && r.githubUser == u) = [] := by
            rw [List.filter_eq_nil_iff]
            intro r hr hmatch
            simp only [Bool.and_eq_true, beq_iff_eq] at hmatch
            have : starForkDupExists db e = true := by
              rw [starForkDupExists, List.any_eq_true]
              refine ⟨r, hr, ?_⟩
              have hst := hme.1 ▸ hsfek e hme.1
              simp only [hmatch.1, hme.1, hmatch.2, hme.2, Bool.and_eq_true,
                beq_self_eq_true, true_and]
              exact hst
            rw [hsfe] at this
            exact Bool.false_ne_true this
          rw [hempty, List.nil_append]
          exact length_filter_singleton_le _ _
        · have hproj : (fun (r : Event) => r.type == t && r.githubUser == u)
              ({ e with id := freshId db, ingestedAt := now } : Event) =
              (e.type == t && e.githubUser == u) := rfl
          have hme' : (e.type == t && e.githubUser == u) = false :=
            Bool.eq_false_iff.mpr hme
          simp only [List.filter_cons, List.filter_nil, hproj, hme',
            Bool.false_eq_true, if_false, List.append_nil]
          exact hinv
  · -- the two-insert scenario
    have h1 : insertEvent db e1 now1 =
        db ++ [{ e1 with id := freshId db, ingestedAt := now1 }] := by
      rw [insertEvent, if_neg (by simp [hc1, hs1]), if_neg (by simp [hg1])]
    set n : Event := { e1 with id := freshId db, ingestedAt := now1 } with hn
    have hsf2 : starForkDupExists (db ++ [n]) e2 = true := by
      rw [starForkDupExists, List.any_eq_true]
      refine ⟨n, by simp, ?_⟩
      have hnt : n.type = e1.type := rfl
      have hnu : n.githubUser = e1.githubUser := rfl
      have hst := ht2 ▸ hsfek e2 ht2
      simp only [hnt, hnu, ht1, ht2, hu1, hu2, Bool.and_eq_true,
        beq_self_eq_true, true_and]
      exact hst
    refine ⟨?_, ?_, rfl⟩
    · rw [h1, insertEvent, if_pos (by simp [hsf2])]
    · rw [h1, List.filter_append]
      have hempty : (db.filter fun r => r.type == t && r.githubUser == u) = [] := by
        rw [List.filter_eq_nil_iff]
        intro r hr hmatch
        simp only [Bool.and_eq_true, beq_iff_eq] at hmatch
        have : starForkDupExists db e1 = true := by
          rw [starForkDupExists, List.any_eq_true]
          refine ⟨r, hr, ?_⟩
          have hst := ht1 ▸ hsfek e1 ht1
          simp only [hmatch.1, ht1, hmatch.2, hu1, Bool.and_eq_true,
            beq_self_eq_true, true_and]
          exact hst
        rw [hs1] at this
        exact Bool.false_ne_true this
      have hnt : n.type = e1.type := rfl
      have hnu : n.githubUser = e1.githubUser := rfl
      simp [hempty, List.filter_cons, hnt, hnu, ht1, hu1]

/-- First star event of the C4 witness (the spec's event A). -/
def c4StarA : Event :=
  { id := 0, type := EventStar, githubUser := "alice", githubUserID := 1,
    githubID := some 100, payload := "pa", contentHash := "ha", occurredAt := 5 }

/-- Second star event of the C4 witness (the spec's event B). -/
def c4StarB : Event :=
  { id := 0, type := EventStar, githubUser := "alice", githubUserID := 1,
    githubID := some 200, payload := "pb", contentHash := "hb", occurredAt := 6 }

/-- Witness for C4: the spec's example scenario, stars by alice with external
ids 100 then 200. -/
theorem C4_witness :
    (((insertEvent [] c4StarA 3).filter fun r =>
        r.type == EventStar && r.githubUser == "alice").length ≤ 1) ∧
      insertEvent (insertEvent [] c4StarA 3) c4StarB 4 = insertEvent [] c4StarA 3 ∧
      ((insertEvent [] c4StarA 3).filter fun r =>
          r.type == EventStar && r.githubUser == "alice") =
        [{ c4StarA with id := freshId [], ingestedAt := 3 }] ∧
      ({ c4StarA with id := freshId [], ingestedAt := 3 } : Event).githubID =
        c4StarA.githubID :=
  C4_star_fork_narrowing [] c4StarA c4StarA c4StarB 3 3 4 EventStar "alice"
    (Or.inl rfl) (by simp) rfl rfl rfl rfl (by decide) (by decide)
    (by decide) (by decide) (by decide)

/-- `pageConcat` over an empty range. -/
theorem pageConcat_nil (its : Nat → List α) (lo hi : Nat) (h : hi + 1 ≤ lo) :
    pageConcat its lo hi = [] := by
  simp [pageConcat, Nat.sub_eq_zero_of_le h]

/-- `pageConcat` peels its first page. -/
theorem pageConcat_cons (its : Nat → List α) (lo hi : Nat) (h : lo ≤ hi) :
    pageConcat its lo hi = its lo ++ pageConcat its (lo + 1) hi := by
  have hlen : hi + 1 - lo = (hi + 1 - (lo + 1)) + 1 := by omega
  rw [pageConcat, hlen, List.range'_succ]
  simp [pageConcat]

/-- Characterization of the `GetRepoEvents` page loop: while the server keeps
returning full pages with a next link and fails (or runs past the cap) at page
`k`, the loop collects pages `p .. min k 11 - 1`. -/
theorem eventsPagesLoop_spec (srv : Nat → PageResult α) (its : Nat → List α)
    (k : Nat) (hfail : k ≤ 10 → srv k = .fail) :
    ∀ m p, 11 - p = m → 2 ≤ p → p ≤ k →
      (∀ j, p ≤ j → j < k → srv j = .page (its j) true ∧ its j ≠ []) →
      eventsPagesLoop srv p true = pageConcat its p (min k 11 - 1) := by
  intro m
  induction m with
  | zero =>
    intro p hm hp2 hpk hgood
    have hp : p > 10 := by omega
    rw [eventsPagesLoop, dif_pos hp]
    exact (pageConcat_nil its p _ (by omega)).symm
  | succ m ih =>
    intro p hm hp2 hpk hgood
    by_cases hp10 : p > 10
    · rw [eventsPagesLoop, dif_pos hp10]
      exact (pageConcat_nil its p _ (by omega)).symm
    · rcases Nat.lt_or_ge p k with hpk' | hpk'
      · obtain ⟨hs, hne⟩ := hgood p le_rfl hpk'
        rw [eventsPagesLoop, dif_neg hp10]
        simp only [Bool.not_true, Bool.false_eq_true, if_false, hs]
        rw [if_neg (by simp [hne])]
        rw [ih (p + 1) (by omega) (by omega) (by omega)
          (fun j hj1 hj2 => hgood j (by omega) hj2)]
        exact (pageConcat_cons its p _ (by omega)).symm
      · have hpk'' : p = k := by omega
        have hk10 : k ≤ 10 := by omega
        rw [eventsPagesLoop, dif_neg hp10]
        simp only [Bool.not_true, Bool.false_eq_true, if_false]
        rw [hpk'', hfail hk10]
        exact (pageConcat_nil its k _ (by omega)).symm

/-- Characterization of the `fetchAllReactions` page loop: pages accumulate
up to the failing page or the 50-page cap, and the error flag records whether
the failure was reached. -/
theorem reactionsPagesLoop_spec (srv : Nat → PageResult α) (its : Nat → List α)
    (k : Nat) (hfail : k ≤ 50 → srv k = .fail) :
    ∀ m p acc, 51 - p = m → 1 ≤ p → p ≤ k →
      (∀ j, p ≤ j → j < k → srv j = .page (its j) true ∧ its j ≠ []) →
      reactionsPagesLoop srv p acc =
        (acc ++ pageConcat its p (min k 51 - 1), decide (k ≤ 50)) := by
  intro m
  induction m with
  | zero =>
    intro p acc hm hp1 hpk hgood
    have hp : p > 50 := by omega
    rw [reactionsPagesLoop, dif_pos hp]
    have hk : ¬(k ≤ 50) := by omega
    rw [pageConcat_nil its p _ (by omega)]
    simp [hk]
  | succ m ih =>
    intro p acc hm hp1 hpk hgood
    by_cases hp50 : p > 50
    · rw [reactionsPagesLoop, dif_pos hp50]
      have hk : ¬(k ≤ 50) := by omega
      rw [pageConcat_nil its p _ (by omega)]
      simp [hk]
    · rcases Nat.lt_or_ge p k with hpk' | hpk'
      · obtain ⟨hs, hne⟩ := hgood p le_rfl hpk'
        rw [reactionsPagesLoop, dif_neg hp50]
        simp only [hs]
        rw [if_neg (by simp [hne])]
        rw [ih (p + 1) (acc ++ its p) (by omega) (by omega) (by omega)
          (fun j hj1 hj2 => hgood j (by omega) hj2)]
        rw [pageConcat_cons its p _ (by omega), List.append_assoc]
      · have hpk'' : p = k := by omega
        have hk50 : k ≤ 50 := by omega
        rw [reactionsPagesLoop, dif_neg hp50, hpk'', hfail hk50]
        rw [pageConcat_nil its k _ (by omega)]
        simp [hk50]

/-- Characterization of the `GetAllPRs` loop on a mid-pagination failure:
everything accumulated so far is discarded and only the error is returned. -/
theorem allPRsLoop_fail (srv : Nat → PageResult α) (its : Nat → List α)
    (k : Nat) (hfail : srv k = .fail) :
    ∀ fuel p acc, p ≤ k → k - p < fuel →
      (∀ j, p ≤ j → j < k → srv j = .page (its j) false ∧ (its j).length = 100) →
      allPRsLoop srv fuel p acc = .fail := by
  intro fuel
  induction fuel with
  | zero => intro p acc hpk hfuel hgood; omega
  | succ fuel ih =>
    intro p acc hpk hfuel hgood
    rcases Nat.lt_or_ge p k with hpk' | hpk'
    · obtain ⟨hs, hlen⟩ := hgood p le_rfl hpk'
      rw [allPRsLoop]
      simp only [hs]
      show (if (its p).isEmpty = true then AllPRsResult.ok acc
          else if (its p).length < 100 then AllPRsResult.ok (acc ++ its p)
          else allPRsLoop srv fuel (p + 1) (acc ++ its p)) = AllPRsResult.fail
      have hne : ¬((its p).isEmpty = true) := by
        rw [List.isEmpty_eq_true]
        intro hcon
        rw [hcon] at hlen
        simp at hlen
      rw [if_neg hne, if_neg (by omega)]
      exact ih (p + 1) (acc ++ its p) (by omega) (by omega)
        (fun j hj1 hj2 => hgood j (by omega) hj2)
    · have : p = k := by omega
      rw [allPRsLoop, this, hfail]

/-- Characterization of the `GetAllPRs` loop on an endless supply of full
pages: it terminates within no bounded number of iterations (no page cap). -/
theorem allPRsLoop_no_cap (srv : Nat → PageResult α) (its : Nat → List α)
    (hgood : ∀ j, 1 ≤ j → srv j = .page (its j) false ∧ (its j).length = 100) :
    ∀ fuel p acc, 1 ≤ p → allPRsLoop srv fuel p acc = .running := by
  intro fuel
  induction fuel with
  | zero => intro p acc hp; rfl
  | succ fuel ih =>
    intro p acc hp
    obtain ⟨hs, hlen⟩ := hgood p hp
    rw [allPRsLoop]
    simp only [hs]
    show (if (its p).isEmpty = true then AllPRsResult.ok acc
        else if (its p).length < 100 then AllPRsResult.ok (acc ++ its p)
        else allPRsLoop srv fuel (p + 1) (acc ++ its p)) = AllPRsResult.running
    have hne : ¬((its p).isEmpty = true) := by
      rw [List.isEmpty_eq_true]
      intro hcon
      rw [hcon] at hlen
      simp at hlen
    rw [if_neg hne, if_neg (by omega)]
    exact ih (p + 1) (acc ++ its p) (by omega)

/-- Counterexample to C8 as stated: `GetAllPRs` receives one full first page
(100 PRs, and with no next link at that) and a failure on its manually
numbered second request; it returns only the error, discarding the fetched
page, instead of returning the accumulated pages. -/
theorem C8_counterexample :
    getAllPRs
        (fun j => if j = 1 then PageResult.page (List.replicate 100 (0 : Nat)) false
          else PageResult.fail) 5 = AllPRsResult.fail ∧
      (fun j => if j = 1 then PageResult.page (List.replicate 100 (0 : Nat)) false
        else PageResult.fail) 1 =
        PageResult.page (List.replicate 100 (0 : Nat)) false := by
  constructor
  · decide
  · rfl

/-- Claim C8 (amended): the events feed (`GetRepoEvents`) and the reactions
fetcher (`fetchAllReactions`) follow server-supplied next-page links up to
fixed caps of 10 and 50 pages, and on a failure after at least one fetched
page they return the pages accumulated so far (the reactions fetcher alongside
the error); `GetAllPRs`, however, iterates manual page numbers (continuing
purely on page fullness, ignoring next links), has no page cap, and on a
mid-pagination failure returns only the error, discarding accumulated pages. -/
theorem C8_pagination_amended (α : Type) :
    (∀ (its : Nat → List α) (k : Nat) (srv : Nat → PageResult α),
      2 ≤ k → k ≤ 10 →
      (∀ j, 2 ≤ j → j < k → srv j = .page (its j) true ∧ its j ≠ []) →
      srv k = .fail →
      getRepoEvents (.page (its 1) true) srv =
        .events (pageConcat its 1 (k - 1))) ∧
    (∀ (its : Nat → List α) (srv : Nat → PageResult α),
      (∀ j, 2 ≤ j → j ≤ 10 → srv j = .page (its j) true ∧ its j ≠ []) →
      getRepoEvents (.page (its 1) true) srv =
        .events (pageConcat its 1 10)) ∧
    (∀ (its : Nat → List α) (k : Nat) (srv : Nat → PageResult α),
      1 ≤ k → k ≤ 50 →
      (∀ j, 1 ≤ j → j < k → srv j = .page (its j) true ∧ its j ≠ []) →
      srv k = .fail →
      fetchAllReactions srv = (pageConcat its 1 (k - 1), true)) ∧
    (∀ (its : Nat → List α) (srv : Nat → PageResult α),
      (∀ j, 1 ≤ j → j ≤ 50 → srv j = .page (its j) true ∧ its j ≠ []) →
      fetchAllReactions srv = (pageConcat its 1 50, false)) ∧
    (∀ (its : Nat → List α) (k fuel : Nat) (srv : Nat → PageResult α),
      1 ≤ k → k ≤ fuel →
      (∀ j, 1 ≤ j → j < k → srv j = .page (its j) false ∧ (its j).length = 100) →
      srv k = .fail →
      getAllPRs srv fuel = .fail) ∧
    (∀ (its : Nat → List α) (fuel : Nat) (srv : Nat → PageResult α),
      (∀ j, 1 ≤ j → srv j = .page (its j) false ∧ (its j).length = 100) →
      getAllPRs srv fuel = .running) := by
  refine ⟨?_, ?_, ?_, ?_, ?_, ?_⟩
  · intro its k srv hk2 hk10 hgood hfailk
    rw [getRepoEvents]
    rw [eventsPagesLoop_spec srv its k (fun _ => hfailk) 9 2 rfl le_rfl hk2 hgood]
    have hmin : min k 11 = k := by omega
    rw [hmin]
    rw [← pageConcat_cons its 1 (k - 1) (by omega)]
  · intro its srv hgood
    rw [getRepoEvents]
    rw [eventsPagesLoop_spec srv its 11 (fun hc => absurd hc (by omega)) 9 2 rfl
      le_rfl (by omega) (fun j hj1 hj2 => hgood j hj1 (by omega))]
    have hmin : min 11 11 - 1 = 10 := by omega
    rw [hmin]
    rw [← pageConcat_cons its 1 10 (by omega)]
  · intro its k srv hk1 hk50 hgood hfailk
    rw [fetchAllReactions]
    rw [reactionsPagesLoop_spec srv its k (fun _ => hfailk) 50 1 [] rfl le_rfl
      hk1 hgood]
    have hmin : min k 51 = k := by omega
    rw [hmin, List.nil_append]
    simp [hk50]
  · intro its srv hgood
    rw [fetchAllReactions]
    rw [reactionsPagesLoop_spec srv its 51 (fun hc => absurd hc (by omega)) 50 1
      [] rfl le_rfl (by omega) (fun j hj1 hj2 => hgood j hj1 (by omega))]
    have hmin : min 51 51 - 1 = 50 := by omega
    rw [hmin, List.nil_append]
    simp
  · intro its k fuel srv hk1 hkfuel hgood hfailk
    rw [getAllPRs]
    exact allPRsLoop_fail srv its k hfailk fuel 1 [] hk1 (by omega) hgood
  · intro its fuel srv hgood
    rw [getAllPRs]
    exact allPRsLoop_no_cap srv its hgood fuel 1 [] le_rfl

/-- Witness for C8 (amended): the events feed returns pages 1 and 2 when page
3 fails. -/
theorem C8_witness :
    getRepoEvents (FirstPageResult.page ([42] : List Nat) true)
        (fun j => if j < 3 then PageResult.page [42] true else PageResult.fail) =
      RepoEventsResult.events (pageConcat (fun _ => ([42] : List Nat)) 1 2) :=
  (C8_pagination_amended Nat).1 (fun _ => [42]) 3
    (fun j => if j < 3 then PageResult.page [42] true else PageResult.fail)
    (by omega) (by omega)
    (fun j hj1 hj2 => by
      have hj : j = 2 := by omega
      subst hj
      exact ⟨rfl, by decide⟩)
    rfl

/-! ## Ordering infrastructure for the pagination proof (C2) -/

theorem insertOrdered_perm (le : Event → Event → Bool) (a : Event) :
    ∀ l : List Event, (insertOrdered le a l).Perm (a :: l) := by
  intro l
  induction l with
  | nil => exact List.Perm.refl _
  | cons b t ih =>
    rw [insertOrdered]
    by_cases hab : le a b = true
    · rw [if_pos hab]
    · rw [if_neg hab]
      exact (ih.cons b).trans (List.Perm.swap a b t)

theorem sortRows_perm (le : Event → Event → Bool) :
    ∀ l : List Event, (sortRows le l).Perm l := by
  intro l
  induction l with
  | nil => exact List.Perm.refl _
  | cons a t ih =>
    rw [sortRows]
    exact (insertOrdered_perm le a _).trans (ih.cons a)

theorem mem_insertOrdered (le : Event → Event → Bool) (a x : Event)
    (l : List Event) (hx : x ∈ insertOrdered le a l) : x = a ∨ x ∈ l := by
  have := (insertOrdered_perm le a l).mem_iff.mp hx
  simpa using this

theorem insertOrdered_pairwise (le : Event → Event → Bool)
    (htot : ∀ a b, (le a b || le b a) = true)
    (htrans : ∀ a b c, le a b = true → le b c = true → le a c = true)
    (a : Event) :
    ∀ l : List Event, l.Pairwise (le · · = true) →
      (insertOrdered le a l).Pairwise (le · · = true) := by
  intro l
  induction l with
  | nil => intro _; simp [insertOrdered]
  | cons b t ih =>
    intro hl
    rw [List.pairwise_cons] at hl
    rw [insertOrdered]
    by_cases hab : le a b = true
    · rw [if_pos hab]
      rw [List.pairwise_cons]
      refine ⟨?_, List.pairwise_cons.mpr hl⟩
      intro x hx
      rcases List.mem_cons.mp hx with hx | hx
      · rw [hx]; exact hab
      · exact htrans a b x hab (hl.1 x hx)
    · rw [if_neg hab]
      rw [List.pairwise_cons]
      have hba : le b a = true := by
        have := htot a b
        rw [Bool.or_eq_true] at this
        rcases this with h | h
        · exact absurd h hab
        · exact h
      refine ⟨?_, ih hl.2⟩
      intro x hx
      rcases mem_insertOrdered le a x t hx with hx | hx
      · rw [hx]; exact hba
      · exact hl.1 x hx

theorem sortRows_pairwise (le : Event → Event → Bool)
    (htot : ∀ a b, (le a b || le b a) = true)
    (htrans : ∀ a b c, le a b = true → le b c = true → le a c = true) :
    ∀ l : List Event, (sortRows le l).Pairwise (le · · = true) := by
  intro l
  induction l with
  | nil => simp [sortRows]
  | cons a t ih =>
    rw [sortRows]
    exact insertOrdered_pairwise le htot htrans a _ ih

/-- Two lists that are permutations of each other and both strictly sorted by
an asymmetric relation are equal. -/
theorem eq_of_perm_of_pairwise (lt : Event → Event → Bool)
    (hasym : ∀ a b, lt a b = true → lt b a = false) :
    ∀ (l₁ l₂ : List Event), l₁.Perm l₂ → l₁.Pairwise (lt · · = true) →
      l₂.Pairwise (lt · · = true) → l₁ = l₂ := by
  intro l₁
  induction l₁ with
  | nil =>
    intro l₂ hp _ _
    exact (hp.nil_eq).symm ▸ rfl
  | cons a t ih =>
    intro l₂ hp h₁ h₂
    cases l₂ with
    | nil => exact absurd hp.symm (by simp)
    | cons b t₂ =>
      rw [List.pairwise_cons] at h₁ h₂
      by_cases hab : a = b
      · subst hab
        rw [ih t₂ (hp.cons_inv) h₁.2 h₂.2]
      · exfalso
        have ha2 : a ∈ b :: t₂ := hp.mem_iff.mp (List.mem_cons_self a t)
        have hat2 : a ∈ t₂ := by
          rcases List.mem_cons.mp ha2 with h | h
          · exact absurd h hab
          · exact h
        have hb1 : b ∈ a :: t := hp.symm.mem_iff.mp (List.mem_cons_self b t₂)
        have hbt : b ∈ t := by
          rcases List.mem_cons.mp hb1 with h | h
          · exact absurd h.symm hab
          · exact h
        have h1 : lt a b = true := h₁.1 b hbt
        have h2 : lt b a = true := h₂.1 a hat2
        rw [hasym a b h1] at h2
        exact Bool.false_ne_true h2

/-- Filtering a strictly sorted list by "strictly after the element at index
j" drops exactly the first j+1 elements. -/
theorem filter_lt_get (lt : Event → Event → Bool)
    (hasym : ∀ a b, lt a b = true → lt b a = false)
    (hirr : ∀ a, lt a a = false) :
    ∀ (L : List Event), L.Pairwise (lt · · = true) →
      ∀ (j : Nat) (hj : j < L.length),
        L.filter (fun r => lt (L.get ⟨j, hj⟩) r) = L.drop (j + 1) := by
  intro L
  induction L with
  | nil => intro _ j hj; exact absurd hj (by simp)
  | cons a t ih =>
    intro hL j hj
    rw [List.pairwise_cons] at hL
    cases j with
    | zero =>
      simp only [List.get]
      rw [List.filter_cons, hirr a]
      simp only [Bool.false_eq_true, if_false, List.drop_succ_cons, List.drop_zero]
      exact List.filter_eq_self.mpr fun x hx => hL.1 x hx
    | succ m =>
      have hm : m < t.length := by simpa using hj
      simp only [List.get]
      have hc : t.get ⟨m, hm⟩ ∈ t := List.get_mem t m hm
      rw [List.filter_cons, hasym a _ (hL.1 _ hc)]
      simp only [Bool.false_eq_true, if_false, List.drop_succ_cons]
      exact ih hL.2 m hm

/-- In a table with pairwise-distinct ids, looking a member row up by id
finds exactly that row. -/
theorem find_by_id (db : List Event)
    (hid : db.Pairwise (fun a b => a.id ≠ b.id)) (c : Event) (hc : c ∈ db) :
    db.find? (fun r => r.id == c.id) = some c := by
  induction db with
  | nil => exact absurd hc (by simp)
  | cons a t ih =>
    rw [List.pairwise_cons] at hid
    rcases List.mem_cons.mp hc with h | h
    · subst h
      rw [List.find?_cons_of_pos _ (by simp)]
    · have hne : a.id ≠ c.id := hid.1 c h
      rw [List.find?_cons_of_neg _ (by simp [hne]), ih hid.2 h]

theorem keyLe_total (a b : Event) : (keyLe a b || keyLe b a) = true := by
  simp only [keyLe, Bool.or_eq_true, Bool.and_eq_true, decide_eq_true_eq,
    beq_iff_eq]
  omega

theorem keyLe_trans (a b c : Event) (h1 : keyLe a b = true)
    (h2 : keyLe b c = true) : keyLe a c = true := by
  simp only [keyLe, Bool.or_eq_true, Bool.and_eq_true, decide_eq_true_eq,
    beq_iff_eq] at h1 h2 ⊢
  omega

theorem keyLt_asym (a b : Event) (h : keyLt a b = true) : keyLt b a = false := by
  simp only [keyLt, Bool.or_eq_true, Bool.and_eq_true, decide_eq_true_eq,
    beq_iff_eq, Bool.or_eq_false_iff, Bool.and_eq_false_iff,
    decide_eq_false_iff_not, not_lt, beq_eq_false_iff_ne, ne_eq] at h ⊢
  omega

theorem keyLt_irrefl (a : Event) : keyLt a a = false := by
  simp only [keyLt, Bool.or_eq_false_iff, Bool.and_eq_false_iff,
    decide_eq_false_iff_not, not_lt, beq_eq_false_iff_ne, ne_eq]
  omega

theorem keyLe_ne_keyLt (a b : Event) (h : keyLe a b = true) (hne : a.id ≠ b.id) :
    keyLt a b = true := by
  simp only [keyLe, keyLt, Bool.or_eq_true, Bool.and_eq_true,
    decide_eq_true_eq, beq_iff_eq] at h ⊢
  omega

theorem rowLe_total (sort : String) (a b : Event) :
    (rowLe sort a b || rowLe sort b a) = true := by
  rw [rowLe, rowLe]
  by_cases hs : (sort == "oldest") = true
  · rw [if_pos hs, if_pos hs]
    exact keyLe_total a b
  · rw [if_neg hs, if_neg hs]
    exact keyLe_total b a

theorem rowLe_trans (sort : String) (a b c : Event)
    (h1 : rowLe sort a b = true) (h2 : rowLe sort b c = true) :
    rowLe sort a c = true := by
  rw [rowLe] at h1 h2 ⊢
  by_cases hs : (sort == "oldest") = true
  · rw [if_pos hs] at h1 h2 ⊢
    exact keyLe_trans a b c h1 h2
  · rw [if_neg hs] at h1 h2 ⊢
    exact keyLe_trans c b a h2 h1

theorem cursorKeep_asym (sort : String) (a b : Event)
    (h : cursorKeep sort a b = true) : cursorKeep sort b a = false := by
  rw [cursorKeep] at h ⊢
  by_cases hs : (sort == "oldest") = true
  · rw [if_pos hs] at h ⊢
    exact keyLt_asym a b h
  · rw [if_neg hs] at h ⊢
    exact keyLt_asym b a h

theorem cursorKeep_irrefl (sort : String) (a : Event) :
    cursorKeep sort a a = false := by
  rw [cursorKeep]
  by_cases hs : (sort == "oldest") = true
  · rw [if_pos hs]; exact keyLt_irrefl a
  · rw [if_neg hs]; exact keyLt_irrefl a

theorem rowLe_ne_cursorKeep (sort : String) (a b : Event)
    (h : rowLe sort a b = true) (hne : a.id ≠ b.id) :
    cursorKeep sort a b = true := by
  rw [rowLe] at h
  rw [cursorKeep]
  by_cases hs : (sort == "oldest") = true
  · rw [if_pos hs] at h ⊢
    exact keyLe_ne_keyLt a b h hne
  · rw [if_neg hs] at h ⊢
    exact keyLe_ne_keyLt b a h (Ne.symm hne)

/-- The full result order of `listInternal` for a fixed filter set and sort
direction: the qualifying rows in ORDER BY order. -/
def sortedView (db : List Event) (f : Option ListFilters) (sort : String) :
    List Event :=
  sortRows (rowLe sort) (filteredRows db f)

theorem filteredRows_sublist (db : List Event) (f : Option ListFilters) :
    (filteredRows db f).Sublist db := by
  cases f with
  | none => exact List.Sublist.refl db
  | some fl => exact List.filter_sublist db

theorem sortedView_perm (db : List Event) (f : Option ListFilters)
    (sort : String) : (sortedView db f sort).Perm (filteredRows db f) :=
  sortRows_perm _ _

theorem sortedView_id_pairwise (db : List Event) (f : Option ListFilters)
    (sort : String) (hid : db.Pairwise (fun a b => a.id ≠ b.id)) :
    (sortedView db f sort).Pairwise (fun a b => a.id ≠ b.id) := by
  have hidf : (filteredRows db f).Pairwise (fun a b => a.id ≠ b.id) :=
    List.Pairwise.sublist (filteredRows_sublist db f) hid
  exact ((sortedView_perm db f sort).pairwise_iff
    (fun h => Ne.symm h)).mpr hidf

theorem sortedView_pairwise (db : List Event) (f : Option ListFilters)
    (sort : String) (hid : db.Pairwise (fun a b => a.id ≠ b.id)) :
    (sortedView db f sort).Pairwise
      (fun a b => cursorKeep sort a b = true) := by
  have hle : (sortedView db f sort).Pairwise
      (fun a b => rowLe sort a b = true) :=
    sortRows_pairwise _ (rowLe_total sort) (rowLe_trans sort) _
  exact (hle.and (sortedView_id_pairwise db f sort hid)).imp
    fun h => rowLe_ne_cursorKeep sort _ _ h.1 h.2

theorem sortedView_subset (db : List Event) (f : Option ListFilters)
    (sort : String) (x : Event) (hx : x ∈ sortedView db f sort) : x ∈ db :=
  (filteredRows_sublist db f).subset
    ((sortedView_perm db f sort).mem_iff.mp hx)

theorem listInternal_none (db : List Event) (f : Option ListFilters)
    (sort : String) (n : Nat) :
    listInternal db f sort n none = (sortedView db f sort).take n := rfl

theorem listInternal_cursor (db : List Event) (f : Option ListFilters)
    (sort : String) (n : Nat) (hid : db.Pairwise (fun a b => a.id ≠ b.id))
    (j : Nat) (hj : j < (sortedView db f sort).length) :
    listInternal db f sort n
        (some (((sortedView db f sort).get ⟨j, hj⟩).id)) =
      ((sortedView db f sort).drop (j + 1)).take n := by
  set L := sortedView db f sort with hL
  set c : Event := L.get ⟨j, hj⟩ with hc
  have hcL : c ∈ L := List.get_mem L j hj
  have hcf : c ∈ filteredRows db f := (sortedView_perm db f sort).mem_iff.mp hcL
  have hcdb : c ∈ db := (filteredRows_sublist db f).subset hcf
  have hfind : db.find? (fun r => r.id == c.id) = some c :=
    find_by_id db hid c hcdb
  have hstep : listInternal db f sort n (some c.id) =
      (sortRows (rowLe sort)
        ((filteredRows db f).filter (cursorKeep sort c))).take n := by
    rw [listInternal]
    simp only [hfind]
  rw [hstep]
  have hsorted : sortRows (rowLe sort)
      ((filteredRows db f).filter (cursorKeep sort c)) =
      L.filter (cursorKeep sort c) := by
    apply eq_of_perm_of_pairwise (cursorKeep sort) (cursorKeep_asym sort)
    · exact (sortRows_perm _ _).trans
        (((sortedView_perm db f sort).symm.filter _))
    · have hle : (sortRows (rowLe sort)
          ((filteredRows db f).filter (cursorKeep sort c))).Pairwise
            (fun a b => rowLe sort a b = true) :=
        sortRows_pairwise _ (rowLe_total sort) (rowLe_trans sort) _
      have hidf : ((filteredRows db f).filter (cursorKeep sort c)).Pairwise
          (fun a b => a.id ≠ b.id) :=
        List.Pairwise.sublist (List.filter_sublist _)
          (List.Pairwise.sublist (filteredRows_sublist db f) hid)
      have hids : (sortRows (rowLe sort)
          ((filteredRows db f).filter (cursorKeep sort c))).Pairwise
            (fun a b => a.id ≠ b.id) :=
        ((sortRows_perm _ _).pairwise_iff (fun h => Ne.symm h)).mpr hidf
      exact (hle.and hids).imp fun h => rowLe_ne_cursorKeep sort _ _ h.1 h.2
    · exact List.Pairwise.sublist (List.filter_sublist L)
        (sortedView_pairwise db f sort hid)
  rw [hsorted]
  rw [filter_lt_get (cursorKeep sort) (cursorKeep_asym sort)
    (cursorKeep_irrefl sort) L (sortedView_pairwise db f sort hid) j hj]

/-- The client-side pagination scheme of the claim: fetch a page, then pass
the last returned row's id as the next cursor, until a page comes back empty
(`fuel` bounds the number of round trips). -/
def collectPages (db : List Event) (f : Option ListFilters) (sort : String)
    (limit : Nat) : Nat → Option Nat → List Event
  | 0, _ => []
  | fuel + 1, cursor =>
    let page := listInternal db f sort limit cursor
    match page.getLast? with
    | none => []
    | some last => page ++ collectPages db f sort limit fuel (some last.id)

theorem getLast?_eq_get (l : List Event) (h : l ≠ [])
    (hlt : l.length - 1 < l.length) :
    l.getLast? = some (l.get ⟨l.length - 1, hlt⟩) := by
  rw [List.getLast?_eq_getLast l h, List.getLast_eq_getElem]
  rfl

theorem take_append_drop_length (S : List Event) (n : Nat) :
    S.take n ++ S.drop ((S.take n).length) = S := by
  set m := (S.take n).length with hm
  have h2 : S.take n = S.take m := by
    rcases Nat.le_total n S.length with h | h
    · have hm' : m = n := by rw [hm, List.length_take]; omega
      rw [hm']
    · have hm' : m = S.length := by rw [hm, List.length_take]; omega
      rw [hm', List.take_length, List.take_of_length_le h]
  rw [h2, List.take_append_drop]

/-- Pagination from the cursor at sorted position `j` returns exactly the
rest of the sorted view. -/
theorem collectPages_cursor (db : List Event) (f : Option ListFilters)
    (sort : String) (n : Nat) (hid : db.Pairwise (fun a b => a.id ≠ b.id))
    (hn : 0 < n) :
    ∀ (fuel j : Nat) (hj : j < (sortedView db f sort).length),
      (sortedView db f sort).length - j ≤ fuel →
      collectPages db f sort n fuel
          (some (((sortedView db f sort).get ⟨j, hj⟩).id)) =
        (sortedView db f sort).drop (j + 1) := by
  intro fuel
  induction fuel with
  | zero => intro j hj hf; omega
  | succ fuel ih =>
    intro j hj hf
    have hpage := listInternal_cursor db f sort n hid j hj
    set S := (sortedView db f sort).drop (j + 1) with hSdef
    by_cases hS : S = []
    · simp only [collectPages, hpage, hS, List.take_nil, List.getLast?_nil]
    · have hne : S.take n ≠ [] := by
        rw [Ne, List.take_eq_nil_iff]
        push_neg
        exact ⟨by omega, hS⟩
      have hpl1 : 0 < (S.take n).length := List.length_pos.mpr hne
      have hplS : (S.take n).length ≤ S.length := by
        rw [List.length_take]; omega
      have hSlen : S.length = (sortedView db f sort).length - (j + 1) := by
        rw [hSdef, List.length_drop]
      have hjpl : j + (S.take n).length < (sortedView db f sort).length := by
        omega
      have hlast : (S.take n).getLast? =
          some ((sortedView db f sort).get ⟨j + (S.take n).length, hjpl⟩) := by
        rw [getLast?_eq_get (S.take n) hne (by omega)]
        congr 1
        have h1 : (S.take n).get ⟨(S.take n).length - 1, by omega⟩ =
            S.get ⟨(S.take n).length - 1, by omega⟩ := by
          simp only [List.get_eq_getElem]
          exact List.getElem_take S
        rw [h1]
        simp only [List.get_eq_getElem, hSdef]
        rw [List.getElem_drop (sortedView db f sort)]
        have hpl1' := hpl1
        rw [hSdef] at hpl1'
        congr 1
        omega
      have harith : ∀ (A jj d c : Nat), 1 ≤ d → A - jj ≤ c + 1 →
          A - (jj + d) ≤ c := by
        intro A jj d c h1 h2
        omega
      simp only [collectPages, hpage, hlast]
      rw [ih (j + (S.take n).length) hjpl
        (harith _ j _ fuel hpl1 hf)]
      have hdd : (sortedView db f sort).drop (j + (S.take n).length + 1) =
          S.drop ((S.take n).length) := by
        rw [hSdef, List.drop_drop]
        congr 1
        omega
      rw [hdd]
      exact take_append_drop_length S n

/-- Claim C2: for every fixed filter set and sort direction, concatenating the
successive pages of `listInternal` obtained by passing the last returned
row's id as the cursor yields exactly the full ORDER BY view of the filtered
table — hence a sequence with no duplicate ids and no omitted rows, even when
rows share identical occurred-at values, because the cursor comparison is on
the composite key (occurred_at, id). -/
theorem C2_cursor_pagination_complete (db : List Event)
    (f : Option ListFilters) (sort : String) (n fuel : Nat)
    (hid : db.Pairwise (fun a b => a.id ≠ b.id)) (hn : 0 < n)
    (hfuel : db.length + 1 ≤ fuel) :
    collectPages db f sort n fuel none = sortedView db f sort ∧
      (collectPages db f sort n fuel none).Perm (filteredRows db f) ∧
      ((collectPages db f sort n fuel none).map (fun r => r.id)).Nodup := by
  have hlen : (sortedView db f sort).length ≤ db.length := by
    rw [(sortedView_perm db f sort).length_eq]
    exact (filteredRows_sublist db f).length_le
  have heq : collectPages db f sort n fuel none = sortedView db f sort := by
    cases fuel with
    | zero => omega
    | succ fuel =>
      have hpage : listInternal db f sort n none =
          (sortedView db f sort).take n := listInternal_none db f sort n
      by_cases hL : sortedView db f sort = []
      · simp only [collectPages, hpage, hL, List.take_nil, List.getLast?_nil]
      · have hne : (sortedView db f sort).take n ≠ [] := by
          rw [Ne, List.take_eq_nil_iff]
          push_neg
          exact ⟨by omega, hL⟩
        have hpl1 : 0 < ((sortedView db f sort).take n).length :=
          List.length_pos.mpr hne
        have hplL : ((sortedView db f sort).take n).length ≤
            (sortedView db f sort).length := by
          rw [List.length_take]; omega
        have hjl : ((sortedView db f sort).take n).length - 1 <
            (sortedView db f sort).length := by omega
        have hlast : ((sortedView db f sort).take n).getLast? =
            some ((sortedView db f sort).get
              ⟨((sortedView db f sort).take n).length - 1, hjl⟩) := by
          rw [getLast?_eq_get _ hne (by omega)]
          congr 1
          simp only [List.get_eq_getElem]
          exact List.getElem_take (sortedView db f sort)
        simp only [collectPages, hpage, hlast]
        rw [collectPages_cursor db f sort n hid hn fuel _ hjl (by omega)]
        have hidx : ((sortedView db f sort).take n).length - 1 + 1 =
            ((sortedView db f sort).take n).length := by omega
        rw [hidx]
        exact take_append_drop_length _ n
  refine ⟨heq, ?_, ?_⟩
  · rw [heq]
    exact sortedView_perm db f sort
  · rw [heq]
    exact List.pairwise_map.mpr (sortedView_id_pairwise db f sort hid)

/-- Three rows sharing one occurred-at timestamp, for the C2 witness. -/
def c2Table : List Event :=
  [{ id := 1, type := EventPush, githubUser := "a", githubUserID := 1,
     occurredAt := 7 },
   { id := 2, type := EventPush, githubUser := "b", githubUserID := 2,
     occurredAt := 7 },
   { id := 3, type := EventPush, githubUser := "c", githubUserID := 3,
     occurredAt := 7 }]

/-- Witness for C2: pages of size 2 over three rows with an identical
occurred-at timestamp cover the table exactly once. -/
theorem C2_witness :
    collectPages c2Table none "newest" 2 4 none = sortedView c2Table none "newest" ∧
      (collectPages c2Table none "newest" 2 4 none).Perm
        (filteredRows c2Table none) ∧
      ((collectPages c2Table none "newest" 2 4 none).map (fun r => r.id)).Nodup :=
  C2_cursor_pagination_complete c2Table none "newest" 2 4 (by decide)
    (by decide) (by decide)
